import Mathlib

/-!
Verification development for the EntityCS entity-component core
(`src/entitycs.h`).  The C++ source is shallowly embedded: entities become a
Lean structure, the manager's containers become lists, `shared_ptr` aliasing
is modelled by a store indexed by creation order, machine `uint64_t` masks
become `Nat` with explicit `% 2 ^ 64` where a shift could exceed 64 bits, and
the `while` loops of the dead-entity compactor become fuel-indexed structural
recursions (the fuel passed by the entry points is always sufficient, which
the lemmas below establish).  `assert`-guarded operations return `Option`,
`none` marking the failing assertion.
-/

namespace EntityCS

/-- States of the manager state machine (`Manager::States`). -/
inductive States where
  | Init : States
  | Running : States
deriving DecidableEq, Repr

/-- Shallow embedding of `ecs::Entity`.  The typed component bank
`std::tuple<TComponents...>` carries no information relevant to the claims
(only membership is ever tested), so it is not carried; `m_componentFlags`
records membership.  `m_scripts` is modelled by its length `nScripts`.
`beginFired` is observation-only instrumentation recording whether
`runStartupScript` has invoked the scripts' `begin()` callbacks. -/
structure Ent where
  alive : Bool
  componentsAdded : Bool
  id : Nat
  componentFlags : Nat
  nScripts : Nat
  beginFired : Bool
deriving DecidableEq, Repr

/-- Default-constructed entity: `m_alive = true`, `m_componentsAdded = false`,
`m_id = size_t(-1)`, `m_componentFlags = 0`, no scripts. -/
instance : Inhabited Ent :=
  ⟨{ alive := true, componentsAdded := false, id := 2 ^ 64 - 1,
     componentFlags := 0, nScripts := 0, beginFired := false }⟩

/-- Embeds `SystemKeyT(1) << SystemKeyT(slot)` on the 64-bit key type. -/
def componentBit (slot : Nat) : Nat := (1 <<< slot) % 2 ^ 64

/-- Embeds `Entity::hasScript`. -/
def Ent.hasScript (e : Ent) : Bool := e.nScripts != 0

/-- Embeds `Entity::hasComponent<T>` for the component with registry index `slot`. -/
def Ent.hasComponent (e : Ent) (slot : Nat) : Bool :=
  componentBit slot &&& e.componentFlags != 0

/-- Embeds `Entity::addComponent<T>`: asserts `!m_componentsAdded`, then sets the
component's bit.  `none` models the failing assertion. -/
def Ent.addComponent (e : Ent) (slot : Nat) : Option Ent :=
  if e.componentsAdded then none
  else some { e with componentFlags := e.componentFlags ||| componentBit slot }

/-- Embeds `Entity::getComponent<T>`: asserts `hasComponent<T>()`.  The stored value
itself is irrelevant to every claim, so success is `some ()`. -/
def Ent.getComponent (e : Ent) (slot : Nat) : Option Unit :=
  if e.hasComponent slot then some () else none

/-- Embeds `Entity::addScript`: asserts `!m_componentsAdded`, then appends the hook. -/
def Ent.addScript (e : Ent) : Option Ent :=
  if e.componentsAdded then none else some { e with nScripts := e.nScripts + 1 }

/-- Embeds `Entity::kill`. -/
def Ent.kill (e : Ent) : Ent := { e with alive := false }

/-- Embeds `Entity::runStartupScript`: if the entity has scripts, their `begin()`
callbacks fire (recorded by the `beginFired` instrumentation flag). -/
def Ent.runStartupScript (e : Ent) : Ent :=
  if e.hasScript then { e with beginFired := true } else e

/-- Inner loop of `Manager::removeDeadEntities` (both overloads share it):
`while (right > left) { if (v[right]->isAlive()) break; right--; v.pop_back(); }`.
Returns the shrunk vector and the final `right`.  Structural on `right`. -/
def shrinkDead (al : α → Bool) [Inhabited α] (left : Nat) :
    Nat → List α → List α × Nat
  | 0, v => (v, 0)
  | right + 1, v =>
    if left < right + 1 ∧ al (v.getD (right + 1) default) = false then
      shrinkDead al left right v.dropLast
    else (v, right + 1)

/-- Outer loop of the plain `Manager::removeDeadEntities(v)` overload.  One
unit of fuel per iteration of the C++ `while (left <= right)` loop; each
iteration advances `left` by one, so fuel `v.size()` (supplied by
`removeDeadEntities`) always suffices.  The swap-then-pop of the source
(`std::swap(v[left], v[right]); right--; ... v.pop_back();`) is the double
`set` followed by `dropLast`. -/
def removeDeadLoop (al : α → Bool) [Inhabited α] :
    Nat → List α → Nat → Nat → List α
  | 0, v, _, _ => v
  | fuel + 1, v, left, right =>
    if left ≤ right then
      if al (v.getD left default) then
        removeDeadLoop al fuel v (left + 1) right
      else
        let p := shrinkDead al left right v
        if left < p.2 then
          removeDeadLoop al fuel
            (((p.1.set left (p.1.getD p.2 default)).set p.2
              (p.1.getD left default)).dropLast)
            (left + 1) (p.2 - 1)
        else
          removeDeadLoop al fuel p.1.dropLast (left + 1) p.2
    else v

/-- Outer loop of the flag-reporting `Manager::removeDeadEntities(v, rflag,
rscript)` overload.  Identical traversal; additionally, when a dead entity is
found at `left`, its component flags are OR-ed into `rflag` and its script
presence into `rscript` (note: only the entity at `left` — the dead entities
popped by the inner loop are not accumulated, exactly as in the source). -/
def removeDeadLoopF (al : α → Bool) (fl : α → Nat) (hs : α → Bool)
    [Inhabited α] : Nat → List α → Nat → Nat → Nat → Bool → List α × Nat × Bool
  | 0, v, _, _, rflag, rscript => (v, rflag, rscript)
  | fuel + 1, v, left, right, rflag, rscript =>
    if left ≤ right then
      if al (v.getD left default) then
        removeDeadLoopF al fl hs fuel v (left + 1) right rflag rscript
      else
        let rflag' := rflag ||| fl (v.getD left default)
        let rscript' := rscript || hs (v.getD left default)
        let p := shrinkDead al left right v
        if left < p.2 then
          removeDeadLoopF al fl hs fuel
            (((p.1.set left (p.1.getD p.2 default)).set p.2
              (p.1.getD left default)).dropLast)
            (left + 1) (p.2 - 1) rflag' rscript'
        else
          removeDeadLoopF al fl hs fuel p.1.dropLast (left + 1) p.2 rflag' rscript'
    else (v, rflag, rscript)

/-- Embeds `Manager::removeDeadEntities(v)` (plain overload): empty vectors return
unchanged, otherwise the two-pointer loop runs with `left = 0`,
`right = v.size() - 1`. -/
def removeDeadEntities (al : α → Bool) [Inhabited α] (v : List α) : List α :=
  if v.length = 0 then v
  else removeDeadLoop al v.length v 0 (v.length - 1)

/-- Embeds `Manager::removeDeadEntities(v, rflag, rscript)` (flag overload).  Returns
(new vector, rflag, rscript, changed).  On an empty vector the source returns
`false` without writing `rflag`/`rscript`, so the caller's initial values pass
through; otherwise they are reset to `0`/`false` before the loop and `changed`
is `startSize != v.size()`. -/
def removeDeadEntitiesF (al : α → Bool) (fl : α → Nat) (hs : α → Bool)
    [Inhabited α] (v : List α) (rflag : Nat) (rscript : Bool) :
    List α × Nat × Bool × Bool :=
  if v.length = 0 then (v, rflag, rscript, false)
  else
    let r := removeDeadLoopF al fl hs v.length v 0 (v.length - 1) 0 false
    (r.1, r.2.1, r.2.2, decide (v.length ≠ r.1.length))

/-- Embeds `Manager::getComponentMask`: recursion over the required component types
(represented by their registry indices), OR-ing `SystemKeyT(1) << index` into
the accumulated key.  There is no offset: the bit position is exactly the
registry index. -/
def getComponentMask : Nat → List Nat → Nat
  | key, [] => key
  | key, t :: ts => getComponentMask (key ||| componentBit t) ts

/-- Modelled from the spec's words (for comparison with `getComponentMask`,
which is the embedding of the source): "a bitmask built by OR-ing, for each
required component type, a bit at that type's index (offset by one to reserve
bit 0)". -/
def specOffsetQueryMask (ts : List Nat) : Nat :=
  ts.foldl (fun key t => key ||| componentBit (t + 1)) 0

/-- Shallow embedding of `ecs::Manager`.  Entities are reference-counted and
aliased between the master list, the fresh queue and the query caches, so the
model keeps one `store` indexed by creation order (`m_curID` is
`store.length`) and the containers hold indices.  Registered systems are
user-supplied callbacks outside this core; only their count is kept. -/
structure Mgr where
  store : List Ent
  entities : List Nat
  freshEntities : List Nat
  tempCachedQueries : List (List Nat)
  queries : List (Nat × List Nat)
  systems : Nat
  mstate : States
  timeTillThreadStarts : Nat
  nThreads : Nat
deriving DecidableEq, Repr

/-- Dereference a `shared_ptr<Entity>` handle (a store index). -/
def entAt (m : Mgr) (i : Nat) : Ent := m.store.getD i default

/-- Embeds `Manager::addQuery<TReq...>`: asserts `Init`; duplicate keys are ignored,
otherwise an empty persistent entry is appended. -/
def addQueryM (m : Mgr) (reqs : List Nat) : Option Mgr :=
  if m.mstate = States.Init then
    let binaryKey := getComponentMask 0 reqs
    if m.queries.any (fun s => s.1 == binaryKey) then some m
    else some { m with queries := m.queries ++ [(binaryKey, [])] }
  else none

/-- Embeds `Manager::addSystem`: asserts `Init`; the system object itself is an
external callback, only its registration is modelled. -/
def addSystemM (m : Mgr) : Option Mgr :=
  if m.mstate = States.Init then some { m with systems := m.systems + 1 }
  else none

/-- Embeds `Manager::addEntity`: asserts `Running`; allocates a fresh
default-constructed entity with id `m_curID++` and queues it on the fresh
list.  (At this point the new entity has no scripts, so the
`if (e->hasScript()) e->runStartupScript();` in the source is a no-op.) -/
def addEntityM (m : Mgr) : Option (Nat × Mgr) :=
  if m.mstate = States.Running then
    let i := m.store.length
    some (i, { m with store := m.store ++ [{ (default : Ent) with id := i }],
                      freshEntities := m.freshEntities ++ [i] })
  else none

/-- Embeds `Manager::start`: asserts `Init`, then transitions to `Running` (the
systems' `initQueries`/`begin` callbacks are external). -/
def startM (m : Mgr) : Option Mgr :=
  if m.mstate = States.Init then some { m with mstate := States.Running }
  else none

/-- Embeds `Manager::getEntsWith<TReq...>` with required mask `mask`: return the
first persistent query whose key equals the mask, else scan the master list
for entities whose flags are a superset (`(binaryKey & e->m_componentFlags) ==
binaryKey`) and push the result onto `m_tempCachedQueries` (whose back is
returned).  Note the transient store is only ever written, never consulted. -/
def getEntsWith (m : Mgr) (mask : Nat) : List Nat × Mgr :=
  match m.queries.find? (fun s => s.1 == mask) with
  | some s => (s.2, m)
  | none =>
    let res := m.entities.filter fun i => mask &&& (entAt m i).componentFlags == mask
    (res, { m with tempCachedQueries := m.tempCachedQueries ++ [res] })

/-- One iteration of the fresh-entity promotion loop in `Manager::tick`: dead
fresh entities are skipped; an alive one runs its startup scripts, is marked
finalized (`m_componentsAdded = true`), joins the master list, and is appended
to every persistent query whose key its flags satisfy. -/
def promoteOne (m : Mgr) (i : Nat) : Mgr :=
  let e := entAt m i
  if e.alive then
    let e2 := { e.runStartupScript with componentsAdded := true }
    let entKey := e2.componentFlags
    { m with store := m.store.set i e2,
             entities := m.entities ++ [i],
             queries := m.queries.map fun s =>
               if s.1 &&& entKey == s.1 then (s.1, s.2 ++ [i]) else s }
  else m

/-- Embeds `Manager::tick` (phases (a)–(c): clear the transient cache, compact the
master list and the persistent queries whose key intersects the removed-bits
flag, promote the fresh entities).  Phases (d)/(e) invoke the registered
systems' and scripts' `tick` callbacks, which are user-supplied code outside
this core and are modelled as not mutating manager state. -/
def tick (m : Mgr) : Mgr :=
  let m1 : Mgr := { m with tempCachedQueries := [] }
  let r := removeDeadEntitiesF (fun i => (entAt m1 i).alive)
    (fun i => (entAt m1 i).componentFlags)
    (fun i => (entAt m1 i).hasScript) m1.entities 0 false
  let m2 : Mgr := { m1 with entities := r.1 }
  let m3 : Mgr :=
    if r.2.2.2 then
      { m2 with queries := m2.queries.map fun q =>
          if q.1 &&& r.2.1 ≠ 0 then
            (q.1, removeDeadEntities (fun i => (entAt m2 i).alive) q.2)
          else q }
    else m2
  let m4 := m3.freshEntities.foldl promoteOne m3
  { m4 with freshEntities := [] }

/-- Embeds `Manager::tick` with its `assert(m_state == States::Running)`. -/
def tickM (m : Mgr) : Option Mgr :=
  if m.mstate = States.Running then some (tick m) else none

/-- The three control paths of `Manager::forEachParallel`. -/
inductive DispatchPath where
  | serialSmall : DispatchPath
  | probeSerial : DispatchPath
  | parallelSplit : DispatchPath
deriving DecidableEq, Repr

/-- Which path `Manager::forEachParallel` takes over a matched list of size
`n`, with `k = m_nThreads`, measured per-item cost `c` (the timed probe) and
`T = m_timeTillThreadStarts`: small batches (`n <= k*4`, including the empty
early return) run serially with no probe; otherwise the probe runs and the
split happens exactly when `step * c + T < (n - 1) * c` with
`step = (n - 1) / k` (integer division, i.e. floor). -/
def forEachParallelPath (n k c T : Nat) : DispatchPath :=
  if n ≤ k * 4 then DispatchPath.serialSmall
  else if ((n - 1) / k) * c + T < (n - 1) * c then DispatchPath.parallelSplit
  else DispatchPath.probeSerial

/-- The multiset of positions of the matched list at which
`Manager::forEachParallel` invokes the callback: all of them in order when
serial; the probe position 0 followed by the remainder when the probe ran but
the split was not worth it; and, on the parallel path, position 0 (probe),
then for each of the `k - 1` spawned threads the contiguous slice of `step`
positions starting at `1 + j * step`, then the calling thread's remainder. -/
def forEachParallelVisits (n k c T : Nat) : List Nat :=
  if n = 0 then []
  else
    match forEachParallelPath n k c T with
    | DispatchPath.serialSmall => List.range' 0 n
    | DispatchPath.probeSerial => 0 :: List.range' 1 (n - 1)
    | DispatchPath.parallelSplit =>
      let step := (n - 1) / k
      0 :: (((List.range (k - 1)).flatMap fun j => List.range' (1 + j * step) step)
        ++ List.range' (1 + (k - 1) * step) (n - (1 + (k - 1) * step)))

/-- Modelled from the spec's words (for comparison with the source's
`size_t step = (vec.size() - 1) / m_nThreads`): "step = ceil((|L|-1)/threads)". -/
def specCeilStep (n k : Nat) : Nat := (n - 1 + (k - 1)) / k

/-- Concrete manager state exercising tick's query recompaction.  Reachable by:
declare components A (index 0) and B (index 1); `addQuery` for {A} (key 1);
`start`; create entity 0 with component B (flags 2) and entity 1 with
component A (flags 1); `tick` once (both get promoted, entity 1 joins the
query); `kill` both.  This is the state just before the next `tick`. -/
def c1Mgr : Mgr :=
  { store := [{ alive := false, componentsAdded := true, id := 0,
                componentFlags := 2, nScripts := 0, beginFired := false },
              { alive := false, componentsAdded := true, id := 1,
                componentFlags := 1, nScripts := 0, beginFired := false }],
    entities := [0, 1], freshEntities := [], tempCachedQueries := [],
    queries := [(1, [1])], systems := 0, mstate := States.Running,
    timeTillThreadStarts := 0, nThreads := 1 }

/-- Two dead entities: the first with component flags 1 and no script, the
second with component flags 2 and one script. -/
def c7List : List Ent :=
  [{ alive := false, componentsAdded := true, id := 0, componentFlags := 1,
     nScripts := 0, beginFired := false },
   { alive := false, componentsAdded := true, id := 1, componentFlags := 2,
     nScripts := 1, beginFired := false }]

/-- Running manager with one finalized alive entity owning component 0
(flags 1) and no persistent queries. -/
def c4Mgr : Mgr :=
  { store := [{ alive := true, componentsAdded := true, id := 0,
                componentFlags := 1, nScripts := 0, beginFired := false }],
    entities := [0], freshEntities := [], tempCachedQueries := [], queries := [],
    systems := 0, mstate := States.Running, timeTillThreadStarts := 0,
    nThreads := 1 }

/-- Running manager with one alive finalized entity, one persistent query
containing it, no fresh entities. -/
def c8Mgr : Mgr :=
  { store := [{ alive := true, componentsAdded := true, id := 0,
                componentFlags := 1, nScripts := 0, beginFired := true }],
    entities := [0], freshEntities := [], tempCachedQueries := [[0]],
    queries := [(1, [0])], systems := 1, mstate := States.Running,
    timeTillThreadStarts := 5, nThreads := 2 }

/-- Running manager with one pending fresh entity that was killed before the
tick boundary (created with a script and component 0, then `kill()`ed). -/
def c10Mgr : Mgr :=
  { store := [{ alive := false, componentsAdded := false, id := 0,
                componentFlags := 1, nScripts := 1, beginFired := false }],
    entities := [], freshEntities := [0], tempCachedQueries := [],
    queries := [(1, [])], systems := 0, mstate := States.Running,
    timeTillThreadStarts := 0, nThreads := 1 }

/-- A singleton fully-alive entity list (fresh, default-constructed entity). -/
def c2List : List Ent := [default]

/-! ### General list lemmas used by the compactor proofs -/

theorem take_set_le {α : Type} (l : List α) (i j : Nat) (x : α) (h : j ≤ i) :
    (l.set i x).take j = l.take j := by
  induction l generalizing i j with
  | nil => simp
  | cons a l ih =>
    cases i with
    | zero =>
      have hj : j = 0 := by omega
      subst hj; simp
    | succ i =>
      cases j with
      | zero => simp
      | succ j =>
        show a :: (l.set i x).take j = a :: l.take j
        rw [ih i j (by omega)]

theorem dropLast_set_last {α : Type} (l : List α) (x : α) :
    (l.set (l.length - 1) x).dropLast = l.dropLast := by
  rw [List.dropLast_eq_take, List.dropLast_eq_take, List.length_set]
  exact take_set_le l _ _ x (le_refl _)

theorem getD_eq_getElem {α : Type} (l : List α) (i : Nat) (d : α)
    (h : i < l.length) : l.getD i d = l[i] := by
  rw [List.getD_eq_getElem?_getD, List.getElem?_eq_getElem h]
  rfl

theorem getD_take_lt {α : Type} (l : List α) (m i : Nat) (d : α) (h : i < m) :
    (l.take m).getD i d = l.getD i d := by
  rw [List.getD_eq_getElem?_getD, List.getD_eq_getElem?_getD,
    List.getElem?_take, if_pos h]

theorem getD_drop_add {α : Type} (l : List α) (m i : Nat) (d : α) :
    (l.drop m).getD i d = l.getD (m + i) d := by
  rw [List.getD_eq_getElem?_getD, List.getD_eq_getElem?_getD, List.getElem?_drop]

theorem getD_set_ne {α : Type} (l : List α) (i j : Nat) (x d : α) (h : i ≠ j) :
    (l.set i x).getD j d = l.getD j d := by
  rw [List.getD_eq_getElem?_getD, List.getD_eq_getElem?_getD,
    List.getElem?_set_ne h]

theorem dropLast_append_getD {α : Type} (l : List α) (d : α) (h : l ≠ []) :
    l.dropLast ++ [l.getD (l.length - 1) d] = l := by
  have h1 : l.length - 1 < l.length := by
    have := List.length_pos.mpr h; omega
  have h2 : l.getD (l.length - 1) d = l.getLast h := by
    rw [getD_eq_getElem _ _ _ h1]
    exact (List.getLast_eq_getElem l h).symm
  rw [h2]
  exact List.dropLast_append_getLast h

theorem drop_eq_dropLast_drop {α : Type} [Inhabited α] (l : List α) (m : Nat)
    (h : m ≤ l.length - 1) (hne : l ≠ []) :
    l.drop m = l.dropLast.drop m ++ [l.getD (l.length - 1) default] := by
  conv_lhs => rw [← dropLast_append_getD l default hne]
  rw [List.drop_append_eq_append_drop]
  have h0 : m - l.dropLast.length = 0 := by
    rw [List.length_dropLast]; omega
  rw [h0, List.drop_zero]

theorem take_dropLast {α : Type} (l : List α) (m : Nat) (h : m ≤ l.length - 1) :
    l.dropLast.take m = l.take m := by
  rw [List.dropLast_eq_take, List.take_take, Nat.min_eq_left h]

/-! ### Compactor loop lemmas -/

/-- What the inner right-shrinking loop does, under the loop invariant
`right + 1 = v.length`: it peels dead elements off the tail, so the result is
a prefix of `v` (with the invariant re-established), `left` is still at most
the new `right`, everything dropped was dead, and on exit either
`right = left` or `v[right]` is alive. -/
theorem shrinkDead_spec {α : Type} (al : α → Bool) [Inhabited α] (left : Nat) :
    ∀ (right : Nat) (v : List α), right + 1 = v.length → left ≤ right →
      (shrinkDead al left right v).2 + 1 = (shrinkDead al left right v).1.length ∧
      left ≤ (shrinkDead al left right v).2 ∧
      (shrinkDead al left right v).1 = v.take ((shrinkDead al left right v).2 + 1) ∧
      (∀ e ∈ v.drop ((shrinkDead al left right v).2 + 1), al e = false) ∧
      (left < (shrinkDead al left right v).2 →
        al ((shrinkDead al left right v).1.getD (shrinkDead al left right v).2
          default) = true) := by
  intro right
  induction right with
  | zero =>
    intro v hv hl
    simp only [shrinkDead]
    refine ⟨hv, hl, ?_, ?_, by omega⟩
    · rw [List.take_of_length_le (by omega)]
    · intro e he
      rw [List.drop_eq_nil_of_le (by omega)] at he
      cases he
  | succ r ih =>
    intro v hv hl
    simp only [shrinkDead]
    by_cases hc : left < r + 1 ∧ al (v.getD (r + 1) default) = false
    · rw [if_pos hc]
      have hv' : r + 1 = v.dropLast.length := by
        rw [List.length_dropLast]; omega
      have hl' : left ≤ r := by omega
      obtain ⟨H1, H2, H3, H4, H5⟩ := ih v.dropLast hv' hl'
      have hlen1 : (shrinkDead al left r v.dropLast).1.length ≤ v.dropLast.length := by
        rw [H3]
        simp [List.length_take]
      have hld : v.dropLast.length = v.length - 1 := List.length_dropLast v
      have hle : (shrinkDead al left r v.dropLast).2 + 1 ≤ v.length - 1 := by
        omega
      have hne : v ≠ [] := by
        intro h; rw [h] at hv; simp at hv
      refine ⟨H1, H2, ?_, ?_, H5⟩
      · rw [H3, take_dropLast _ _ hle]
      · intro e he
        rw [drop_eq_dropLast_drop v _ hle hne] at he
        rcases List.mem_append.mp he with h | h
        · exact H4 e h
        · have he2 : e = v.getD (v.length - 1) default := List.mem_singleton.mp h
          rw [he2]
          have hr1 : v.length - 1 = r + 1 := by omega
          rw [hr1]
          exact hc.2
    · rw [if_neg hc]
      refine ⟨hv, hl, ?_, ?_, ?_⟩
      · rw [List.take_of_length_le (by omega)]
      · intro e he
        rw [List.drop_eq_nil_of_le (by omega)] at he
        cases he
      · intro hlt
        rcases Bool.eq_false_or_eq_true (al (v.getD (r + 1) default)) with h | h
        · exact h
        · exact absurd ⟨hlt, h⟩ hc

/-- Once `left` has overtaken `right` the outer loop returns the vector
unchanged, whatever fuel remains. -/
theorem removeDeadLoop_exit {α : Type} (al : α → Bool) [Inhabited α]
    (fuel : Nat) (v : List α) (left right : Nat) (h : right < left) :
    removeDeadLoop al fuel v left right = v := by
  cases fuel with
  | zero => rfl
  | succ f =>
    simp only [removeDeadLoop]
    rw [if_neg (by omega)]

/-- Main loop invariant of the two-pointer compactor: started at cursor
`left` with `right = v.length - 1` and enough fuel, the loop returns (up to
permutation) the already-scanned prefix `v.take left` unchanged plus the
alive elements of the unscanned suffix `v.drop left`. -/
theorem removeDeadLoop_perm_aux {α : Type} (al : α → Bool) [Inhabited α] :
    ∀ (fuel : Nat) (v : List α) (left : Nat), v ≠ [] → v.length - left ≤ fuel →
      (removeDeadLoop al fuel v left (v.length - 1)).Perm
        (v.take left ++ (v.drop left).filter al) := by
  intro fuel
  induction fuel with
  | zero =>
    intro v left hv hm
    have hle : v.length ≤ left := by omega
    simp only [removeDeadLoop]
    rw [List.take_of_length_le hle, List.drop_eq_nil_of_le hle]
    simp
  | succ fuel ih =>
    intro v left hv hm
    have hlen : 0 < v.length := List.length_pos.mpr hv
    simp only [removeDeadLoop]
    by_cases hlr : left ≤ v.length - 1
    case neg =>
      rw [if_neg hlr]
      have hle : v.length ≤ left := by omega
      rw [List.take_of_length_le hle, List.drop_eq_nil_of_le hle]
      simp
    case pos =>
    rw [if_pos hlr]
    have hlv : left < v.length := by omega
    by_cases hal : al (v.getD left default) = true
    case pos =>
      rw [if_pos hal]
      have IH := ih v (left + 1) hv (by omega)
      have hgl : v.getD left default = v[left] := getD_eq_getElem v left default hlv
      have hd : v.drop left = v[left] :: v.drop (left + 1) :=
        List.drop_eq_getElem_cons hlv
      have ht : v.take (left + 1) = v.take left ++ [v[left]] := by
        rw [← List.take_concat_get v left hlv, List.concat_eq_append]
      have hrw : v.take (left + 1) ++ (v.drop (left + 1)).filter al =
          v.take left ++ v[left] :: (v.drop (left + 1)).filter al := by
        rw [ht, List.append_assoc, List.singleton_append]
      rw [hd, List.filter_cons_of_pos (by rw [← hgl]; exact hal), ← hrw]
      exact IH
    case neg =>
      rw [if_neg hal]
      have halF : al (v.getD left default) = false := by
        rcases Bool.eq_false_or_eq_true (al (v.getD left default)) with h | h
        · exact absurd h hal
        · exact h
      obtain ⟨H1, H2, H3, H4, H5⟩ :=
        shrinkDead_spec al left (v.length - 1) v (by omega) hlr
      set t := (shrinkDead al left (v.length - 1) v).2 with hT
      set u := (shrinkDead al left (v.length - 1) v).1 with hU
      have hulen : u.length = min (t + 1) v.length := by
        rw [H3, List.length_take]
      have htv : t + 1 ≤ v.length := by omega
      by_cases hsw : left < t
      case pos =>
        rw [if_pos hsw]
        set a := u.getD t default with hA
        set b := u.getD left default with hB
        set d := t - left - 1 with hD
        have hseteq : u.set left a = u.take left ++ a :: u.drop (left + 1) := by
          rw [List.set_eq_take_append_cons_drop, if_pos (by omega : left < u.length)]
        have hw1 : ((u.set left a).set t b).dropLast = (u.set left a).dropLast := by
          have ht' : t = (u.set left a).length - 1 := by
            rw [List.length_set]; omega
          rw [ht']
          exact dropLast_set_last (u.set left a) b
        have hw2 : (u.set left a).dropLast =
            u.take left ++ a :: (u.drop (left + 1)).take d := by
          calc (u.set left a).dropLast
              = (u.take left ++ a :: u.drop (left + 1)).take (u.length - 1) := by
                rw [← hseteq, List.dropLast_eq_take, List.length_set]
            _ = (u.take left).take (u.length - 1) ++
                (a :: u.drop (left + 1)).take ((u.length - 1) - (u.take left).length) :=
                List.take_append_eq_append_take
            _ = u.take left ++ a :: (u.drop (left + 1)).take d := by
                rw [List.take_take]
                have hmin1 : min (u.length - 1) left = left := by omega
                rw [hmin1, List.length_take]
                have hsub : u.length - 1 - min left u.length = d + 1 := by omega
                rw [hsub, List.take_succ_cons]
        set mid := (u.drop (left + 1)).take d with hMid
        have hmidlen : mid.length = d := by
          rw [hMid, List.length_take, List.length_drop]; omega
        have hAlen : (u.take left).length = left := by
          rw [List.length_take]; omega
        have hw3 : t - 1 = (u.take left ++ a :: mid).length - 1 := by
          rw [List.length_append, hAlen, List.length_cons, hmidlen]; omega
        rw [hw1, hw2, hw3]
        have IH := ih (u.take left ++ a :: mid) (left + 1)
          (by simp) (by rw [List.length_append, hAlen, List.length_cons, hmidlen]; omega)
        have hwt : (u.take left ++ a :: mid).take (left + 1) = u.take left ++ [a] := by
          rw [List.take_append_eq_append_take,
            List.take_of_length_le (by rw [hAlen]; omega), hAlen]
          have hone : left + 1 - left = 1 := by omega
          rw [hone, List.take_succ_cons, List.take_zero]
        have hwd : (u.take left ++ a :: mid).drop (left + 1) = mid := by
          rw [List.drop_append_eq_append_drop,
            List.drop_eq_nil_of_le (by rw [hAlen]; omega), hAlen]
          have hone : left + 1 - left = 1 := by omega
          rw [hone, List.drop_succ_cons, List.drop_zero, List.nil_append]
        rw [hwt, hwd] at IH
        have hvtl : v.take left = u.take left := by
          rw [H3, List.take_take]
          congr 1
          omega
        have hsplitv : u ++ v.drop (t + 1) = v := by
          rw [H3]; exact List.take_append_drop _ _
        have hvdl : (v.drop left).filter al = (u.drop left).filter al := by
          conv_lhs => rw [← hsplitv]
          rw [List.drop_append_eq_append_drop, List.filter_append]
          have hnil : ((v.drop (t + 1)).drop (left - u.length)).filter al = [] := by
            apply List.filter_eq_nil.mpr
            intro x hx
            have := H4 x (List.mem_of_mem_drop hx)
            simp [this]
          rw [hnil, List.append_nil]
        have hlu : left < u.length := by omega
        have hudl : u.drop left = b :: u.drop (left + 1) := by
          rw [List.drop_eq_getElem_cons hlu]
          congr 1
          rw [hB, getD_eq_getElem u left default hlu]
        have hBlen : (u.drop (left + 1)).length = d + 1 := by
          rw [List.length_drop]; omega
        have hdrmid : u.drop (left + 1) = mid ++ [a] := by
          have hBne : u.drop (left + 1) ≠ [] := by
            intro h; rw [h] at hBlen; simp at hBlen
          have hsp := dropLast_append_getD (u.drop (left + 1)) default hBne
          rw [List.dropLast_eq_take, hBlen, Nat.add_sub_cancel, getD_drop_add] at hsp
          have htd : left + 1 + d = t := by omega
          rw [htd] at hsp
          rw [← hMid, ← hA] at hsp
          exact hsp.symm
        have halb : al b = false := by
          rw [hB, H3, getD_take_lt _ _ _ _ (by omega)]
          exact halF
        have hala : al a = true := H5 hsw
        rw [hvdl, hudl, hdrmid, List.filter_cons_of_neg (by simp [halb]),
          List.filter_append, List.filter_cons_of_pos hala, List.filter_nil, hvtl]
        refine IH.trans ?_
        rw [List.append_assoc, List.singleton_append]
        exact List.Perm.append_left _ (by
          have hpc : ([a] ++ mid.filter al).Perm (mid.filter al ++ [a]) :=
            List.perm_append_comm
          simpa using hpc)
      case neg =>
        rw [if_neg hsw]
        have hteq : t = left := by omega
        rw [removeDeadLoop_exit al fuel _ (left + 1) t (by omega)]
        have hudl : u.dropLast = v.take left := by
          rw [List.dropLast_eq_take, H3, List.length_take, List.take_take]
          congr 1
          omega
        have hfilter : (v.drop left).filter al = [] := by
          apply List.filter_eq_nil.mpr
          intro x hx
          rw [List.drop_eq_getElem_cons hlv] at hx
          rcases List.mem_cons.mp hx with h | h
          · rw [h, ← getD_eq_getElem v left default hlv]
            exact hal
          · have hx2 : x ∈ v.drop (t + 1) := by
              rw [hteq]; exact h
            simp [H4 x hx2]
        rw [hudl, hfilter, List.append_nil]

/-- The compactor returns a permutation of the alive elements of its input. -/
theorem removeDeadEntities_perm_gen {α : Type} (al : α → Bool) [Inhabited α]
    (v : List α) : (removeDeadEntities al v).Perm (v.filter al) := by
  unfold removeDeadEntities
  by_cases h : v.length = 0
  · rw [if_pos h]
    rw [List.length_eq_zero.mp h]
    simp
  · rw [if_neg h]
    have hv : v ≠ [] := by
      intro hh; rw [hh] at h; simp at h
    have := removeDeadLoop_perm_aux al v.length v 0 hv (by omega)
    simpa using this

/-- The flag-reporting overload removes exactly the same elements as the
plain overload (the two loops take identical branches). -/
theorem removeDeadLoopF_fst {α : Type} (al : α → Bool) (fl : α → Nat)
    (hs : α → Bool) [Inhabited α] :
    ∀ (fuel : Nat) (v : List α) (left right : Nat) (rflag : Nat) (rscript : Bool),
      (removeDeadLoopF al fl hs fuel v left right rflag rscript).1 =
        removeDeadLoop al fuel v left right := by
  intro fuel
  induction fuel with
  | zero => intro v left right rflag rscript; rfl
  | succ fuel ih =>
    intro v left right rflag rscript
    simp only [removeDeadLoopF, removeDeadLoop]
    by_cases h1 : left ≤ right
    · rw [if_pos h1, if_pos h1]
      by_cases h2 : al (v.getD left default) = true
      · rw [if_pos h2, if_pos h2]
        exact ih v (left + 1) right rflag rscript
      · rw [if_neg h2, if_neg h2]
        by_cases h3 : left < (shrinkDead al left right v).2
        · rw [if_pos h3, if_pos h3]
          exact ih _ (left + 1) _ _ _
        · rw [if_neg h3, if_neg h3]
          exact ih _ (left + 1) _ _ _
    · rw [if_neg h1, if_neg h1]

theorem removeDeadEntitiesF_fst {α : Type} (al : α → Bool) (fl : α → Nat)
    (hs : α → Bool) [Inhabited α] (v : List α) (rflag : Nat) (rscript : Bool) :
    (removeDeadEntitiesF al fl hs v rflag rscript).1 = removeDeadEntities al v := by
  unfold removeDeadEntitiesF removeDeadEntities
  by_cases h : v.length = 0
  · rw [if_pos h, if_pos h]
  · rw [if_neg h, if_neg h]
    exact removeDeadLoopF_fst al fl hs v.length v 0 (v.length - 1) 0 false

/-- An element of the compacted list was in the input and is alive. -/
theorem mem_removeDeadEntities {α : Type} (al : α → Bool) [Inhabited α]
    {x : α} {v : List α} (h : x ∈ removeDeadEntities al v) :
    x ∈ v ∧ al x = true :=
  List.mem_filter.mp ((removeDeadEntities_perm_gen al v).mem_iff.mp h)

/-- On a fully-alive vector the outer loop only advances `left` and never
mutates the vector (under the invariant `right < v.length`). -/
theorem removeDeadLoop_all_alive {α : Type} (al : α → Bool) [Inhabited α] :
    ∀ (fuel : Nat) (v : List α) (left right : Nat), right < v.length →
      (∀ e ∈ v, al e = true) →
      removeDeadLoop al fuel v left right = v := by
  intro fuel
  induction fuel with
  | zero => intro v left right _ _; rfl
  | succ fuel ih =>
    intro v left right hr hall
    simp only [removeDeadLoop]
    by_cases h1 : left ≤ right
    · rw [if_pos h1]
      have hlv : left < v.length := by omega
      have hmem : v.getD left default ∈ v := by
        rw [getD_eq_getElem v left default hlv]
        exact List.getElem_mem hlv
      rw [if_pos (hall _ hmem)]
      exact ih v (left + 1) right hr hall
    · rw [if_neg h1]

theorem removeDeadLoopF_all_alive {α : Type} (al : α → Bool) (fl : α → Nat)
    (hs : α → Bool) [Inhabited α] :
    ∀ (fuel : Nat) (v : List α) (left right : Nat) (rflag : Nat) (rscript : Bool),
      right < v.length → (∀ e ∈ v, al e = true) →
      removeDeadLoopF al fl hs fuel v left right rflag rscript = (v, rflag, rscript) := by
  intro fuel
  induction fuel with
  | zero => intro v left right rflag rscript _ _; rfl
  | succ fuel ih =>
    intro v left right rflag rscript hr hall
    simp only [removeDeadLoopF]
    by_cases h1 : left ≤ right
    · rw [if_pos h1]
      have hlv : left < v.length := by omega
      have hmem : v.getD left default ∈ v := by
        rw [getD_eq_getElem v left default hlv]
        exact List.getElem_mem hlv
      rw [if_pos (hall _ hmem)]
      exact ih v (left + 1) right rflag rscript hr hall
    · rw [if_neg h1]

/-- On a fully-alive vector the flag overload is a no-op: vector unchanged,
`rflag = 0`, `rscript = false`, and it reports that nothing was removed. -/
theorem removeDeadEntitiesF_all_alive {α : Type} (al : α → Bool) (fl : α → Nat)
    (hs : α → Bool) [Inhabited α] (v : List α) (hall : ∀ e ∈ v, al e = true) :
    removeDeadEntitiesF al fl hs v 0 false = (v, 0, false, false) := by
  unfold removeDeadEntitiesF
  by_cases h : v.length = 0
  · rw [if_pos h]
  · rw [if_neg h]
    rw [removeDeadLoopF_all_alive al fl hs v.length v 0 (v.length - 1) 0 false
      (by omega) hall]
    simp

/-- On a fully-alive vector the plain overload returns the vector unchanged. -/
theorem removeDeadEntities_all_alive {α : Type} (al : α → Bool) [Inhabited α]
    (v : List α) (hall : ∀ e ∈ v, al e = true) :
    removeDeadEntities al v = v := by
  unfold removeDeadEntities
  by_cases h : v.length = 0
  · rw [if_pos h]
  · rw [if_neg h]
    exact removeDeadLoop_all_alive al v.length v 0 (v.length - 1) (by omega) hall

/-! ### Claim theorems -/

/-- Claim C2: for every entity list, `removeDeadEntities` produces a list
whose multiset of elements equals the multiset of previously-alive elements
of the input (so no duplicates are introduced and no dead entity remains);
the flag-reporting overload removes the same elements; and on a fully-alive
input the list is returned exactly unchanged (hence length and alive set are
unchanged). -/
theorem removeDeadEntities_spec (v : List Ent) :
    (removeDeadEntities Ent.alive v).Perm (v.filter Ent.alive) ∧
    (∀ e ∈ removeDeadEntities Ent.alive v, e.alive = true) ∧
    (removeDeadEntitiesF Ent.alive Ent.componentFlags Ent.hasScript v 0 false).1 =
      removeDeadEntities Ent.alive v ∧
    ((∀ e ∈ v, e.alive = true) → removeDeadEntities Ent.alive v = v) := by
  refine ⟨removeDeadEntities_perm_gen _ _, ?_, removeDeadEntitiesF_fst _ _ _ _ _ _, ?_⟩
  · intro e he
    exact (mem_removeDeadEntities Ent.alive he).2
  · intro hall
    exact removeDeadEntities_all_alive _ _ hall

/-- Claim C2 witness: the compaction of a concrete fully-alive singleton list
is a no-op, by `removeDeadEntities_spec`. -/
theorem removeDeadEntities_spec_witness :
    removeDeadEntities Ent.alive c2List = c2List :=
  (removeDeadEntities_spec c2List).2.2.2 (by decide)

/-- Claim C7, failing input: on the vector `c7List` of two dead entities
(flags 1 without script, flags 2 with a script), the flag overload removes
both entities yet reports `rflag = 1` — not the OR (3) of the removed masks —
and `rscript = false` although a removed entity owned a script: the dead
entity popped by the inner right-shrinking loop is never accumulated.  This
contradicts the source's own comment ("rflag will indicate all removed
components from entities; rscript will indicate if at least one removed
entity had a script"). -/
theorem c7_rflag_misses_inner_pops :
    removeDeadEntitiesF Ent.alive Ent.componentFlags Ent.hasScript c7List 0 false =
      ([], 1, false, true) ∧
    (c7List.filter fun e => !e.alive).foldl
      (fun acc e => acc ||| e.componentFlags) 0 = 3 ∧
    (c7List.filter fun e => !e.alive).any Ent.hasScript = true := by decide

/-- Claim C1, failing input: `c1Mgr` is the (reachable) state with two dead
entities in the master list — entity 0 with flags 2 first, entity 1 with
flags 1 second — and a persistent query of mask 1 containing entity 1.
`tick` removes both from the master list, but the under-reported `rflag` (2,
missing entity 1's bit) does not intersect the query's mask 1, so the query
is not recompacted: after the tick boundary the query still contains the
dead entity 1, violating the alive-and-superset invariant. -/
theorem c1_dead_entity_survives_tick :
    (tick c1Mgr).queries = [(1, [1])] ∧
    (entAt (tick c1Mgr) 1).alive = false ∧
    (tick c1Mgr).entities = [] := by decide

/-- The accumulator of `getComponentMask` hoists out as an OR. -/
theorem getComponentMask_hoist :
    ∀ (ts : List Nat) (key : Nat),
      getComponentMask key ts = key ||| getComponentMask 0 ts := by
  intro ts
  induction ts with
  | nil =>
    intro key
    simp [getComponentMask]
  | cons t ts ih =>
    intro key
    simp only [getComponentMask]
    rw [ih (key ||| componentBit t), ih (0 ||| componentBit t), Nat.zero_or,
      Nat.or_assoc]

theorem componentBit_eq_pow (t : Nat) (h : t < 64) : componentBit t = 2 ^ t := by
  unfold componentBit
  rw [Nat.shiftLeft_eq, one_mul]
  exact Nat.mod_eq_of_lt (Nat.pow_lt_pow_right (by norm_num) h)

/-- Claim C5 (amended): bit `i` of the query-identifying mask is set exactly
when some required component type has registry index `i` — the bit position
is the index itself, with no offset (so bit 0 is set exactly when a required
type has index 0, not reserved). -/
theorem getComponentMask_testBit (ts : List Nat) (h : ∀ t ∈ ts, t < 64)
    (i : Nat) :
    Nat.testBit (getComponentMask 0 ts) i = true ↔ i ∈ ts := by
  induction ts with
  | nil =>
    simp [getComponentMask, Nat.zero_testBit]
  | cons t ts ih =>
    have h0 : t < 64 := h t (List.mem_cons_self t ts)
    have hts : ∀ x ∈ ts, x < 64 := fun x hx => h x (List.mem_cons_of_mem t hx)
    simp only [getComponentMask]
    rw [getComponentMask_hoist ts (0 ||| componentBit t), Nat.zero_or,
      componentBit_eq_pow t h0, Nat.testBit_lor, Nat.testBit_two_pow]
    simp only [Bool.or_eq_true, decide_eq_true_eq, List.mem_cons]
    rw [ih hts]
    constructor
    · rintro (hh | hh)
      · exact Or.inl hh.symm
      · exact Or.inr hh
    · rintro (hh | hh)
      · exact Or.inl hh.symm
      · exact Or.inr hh

/-- Claim C5 counterexample: for the required-type list `[0]` (one component
at registry index 0) the source computes mask 1, with bit 0 set — whereas
the claim's offset-by-one formula yields 2 and asserts bit 0 is never set by
a component type. -/
theorem c5_no_offset_counterexample :
    getComponentMask 0 [0] ≠ specOffsetQueryMask [0] ∧
    Nat.testBit (getComponentMask 0 [0]) 0 = true := by decide

/-- Claim C5 witness: concrete indices `[0, 3]` satisfy the bit
characterisation, by `getComponentMask_testBit`. -/
theorem getComponentMask_testBit_witness :
    Nat.testBit (getComponentMask 0 [0, 3]) 3 = true :=
  (getComponentMask_testBit [0, 3] (by decide) 3).mpr (by decide)

/-- Claim C6 (amended): with `k = m_nThreads`, per-item cost `c` and thread
startup overhead `T` (measured once at manager construction), the parallel
path is taken exactly when `|L| > k*4` and `step * c + T < (|L|-1) * c` with
`step = (|L|-1)/k` rounded DOWN (integer division), not up; and when
`|L| <= k*4` the callback runs serially over the whole list with no probe. -/
theorem forEachParallelPath_decision (n k c T : Nat) :
    (forEachParallelPath n k c T = DispatchPath.parallelSplit ↔
      k * 4 < n ∧ ((n - 1) / k) * c + T < (n - 1) * c) ∧
    (n ≤ k * 4 → forEachParallelPath n k c T = DispatchPath.serialSmall ∧
      forEachParallelVisits n k c T = List.range' 0 n) := by
  constructor
  · unfold forEachParallelPath
    by_cases h1 : n ≤ k * 4
    · rw [if_pos h1]
      constructor
      · intro hh
        exact absurd hh (by simp)
      · intro hh
        exact absurd hh.1 (by omega)
    · rw [if_neg h1]
      by_cases h2 : ((n - 1) / k) * c + T < (n - 1) * c
      · rw [if_pos h2]
        exact ⟨fun _ => ⟨by omega, h2⟩, fun _ => rfl⟩
      · rw [if_neg h2]
        constructor
        · intro hh
          exact absurd hh (by simp)
        · intro hh
          exact absurd hh.2 h2
  · intro hle
    have hpath : forEachParallelPath n k c T = DispatchPath.serialSmall := by
      unfold forEachParallelPath
      rw [if_pos hle]
    refine ⟨hpath, ?_⟩
    unfold forEachParallelVisits
    by_cases h0 : n = 0
    · rw [if_pos h0, h0]
      rfl
    · rw [if_neg h0]
      rw [hpath]

/-- Claim C6 counterexample: at `|L| = 10`, `k = 2`, `c = 1`, `T = 4` the
source takes the parallel path (floor step 4: `4*1+4 = 8 < 9`), while the
claim's ceil step 5 makes its condition `5*1+4 < 9` false — so the claimed
decision rule does not match the code. -/
theorem c6_floor_vs_ceil_counterexample :
    forEachParallelPath 10 2 1 4 = DispatchPath.parallelSplit ∧
    ¬ (specCeilStep 10 2 * 1 + 4 < (10 - 1) * 1) := by decide

/-- Claim C6 witness: a concrete small batch (`n = 8 ≤ 2*4`) runs serially
with no probe, by `forEachParallelPath_decision`. -/
theorem forEachParallelPath_decision_witness :
    forEachParallelPath 8 2 1 0 = DispatchPath.serialSmall ∧
    forEachParallelVisits 8 2 1 0 = List.range' 0 8 :=
  (forEachParallelPath_decision 8 2 1 0).2 (by decide)

/-- Concatenating the `k - 1` spawned slices of `step` consecutive positions
each yields one contiguous range. -/
theorem flatMap_range_slices (a s : Nat) :
    ∀ m : Nat, (List.range m).flatMap (fun j => List.range' (a + j * s) s) =
      List.range' a (m * s) := by
  intro m
  induction m with
  | zero => simp
  | succ m ih =>
    rw [List.range_succ, List.flatMap_append, ih, List.flatMap_cons,
      List.flatMap_nil, List.append_nil]
    have happ := List.range'_append a (m * s) s 1
    rw [one_mul] at happ
    rw [happ]
    congr 1
    ring

/-- All three dispatch paths enumerate the positions `0, …, n-1` exactly:
the visit list is literally `List.range n` (the parallel slices plus the
calling thread's remainder partition the post-probe positions). -/
theorem forEachParallelVisits_eq_range (n k c T : Nat) (hk : 1 ≤ k) :
    forEachParallelVisits n k c T = List.range n := by
  unfold forEachParallelVisits
  by_cases h0 : n = 0
  · rw [if_pos h0, h0]
    rfl
  · rw [if_neg h0]
    have hn1 : 1 ≤ n := by omega
    have hcons : 0 :: List.range' 1 (n - 1) = List.range n := by
      rw [List.range_eq_range']
      have hs := List.range'_succ 0 (n - 1) 1
      rw [show n - 1 + 1 = n from by omega] at hs
      rw [hs]
    rcases hpe : forEachParallelPath n k c T with _ | _ | _
    · show List.range' 0 n = List.range n
      rw [List.range_eq_range']
    · exact hcons
    · show 0 :: (((List.range (k - 1)).flatMap fun j =>
          List.range' (1 + j * ((n - 1) / k)) ((n - 1) / k)) ++
          List.range' (1 + (k - 1) * ((n - 1) / k))
            (n - (1 + (k - 1) * ((n - 1) / k)))) = List.range n
      have hk4 : k * 4 < n :=
        ((forEachParallelPath_decision n k c T).1.mp hpe).1
      have hdm : (n - 1) / k * k ≤ n - 1 := Nat.div_mul_le_self (n - 1) k
      have hk1 : (k - 1) * ((n - 1) / k) ≤ n - 1 := by
        calc (k - 1) * ((n - 1) / k) ≤ k * ((n - 1) / k) :=
              Nat.mul_le_mul_right _ (by omega)
          _ = (n - 1) / k * k := Nat.mul_comm _ _
          _ ≤ n - 1 := hdm
      rw [flatMap_range_slices 1 ((n - 1) / k) (k - 1)]
      have happ := List.range'_append 1 ((k - 1) * ((n - 1) / k))
        (n - (1 + (k - 1) * ((n - 1) / k))) 1
      rw [one_mul] at happ
      rw [happ]
      rw [show n - (1 + (k - 1) * ((n - 1) / k)) + (k - 1) * ((n - 1) / k) =
        n - 1 from by omega]
      exact hcons

/-- Claim C3: whichever of the three paths `forEachParallel` takes — serial
small-batch, probe-then-serial, or probe plus parallel slices plus the
calling thread's remainder — the multiset of visited positions of the
matched list is exactly one visit per element.  (`k ≥ 1` reflects
`m_nThreads ≥ 1` on any real platform; `m_nThreads = 0` would divide by
zero in the source.) -/
theorem forEachParallel_visits_once (n k c T : Nat) (hk : 1 ≤ k) :
    (forEachParallelVisits n k c T).Perm (List.range n) := by
  rw [forEachParallelVisits_eq_range n k c T hk]

/-- Claim C3 witness: `n = 9, k = 2, c = 1, T = 0` (which takes the parallel
path) visits every position exactly once, by `forEachParallel_visits_once`. -/
theorem forEachParallel_visits_once_witness :
    (forEachParallelVisits 9 2 1 0).Perm (List.range 9) :=
  forEachParallel_visits_once 9 2 1 0 (by decide)

/-- Claim C4 (amended): a `getEntsWith` request whose mask matches no
persistent query performs a full scan of the master list and appends the
result as a new transient entry — and a second request with the same mask in
the same tick scans again and appends another identical entry.  The
transient store is never consulted for reuse; it only keeps the returned
lists alive until the next tick clears it. -/
theorem getEntsWith_transient_rescans (m : Mgr) (mask : Nat)
    (h : m.queries.find? (fun s => s.1 == mask) = none) :
    (getEntsWith m mask).1 =
      m.entities.filter (fun i => mask &&& (entAt m i).componentFlags == mask) ∧
    (getEntsWith m mask).2.tempCachedQueries =
      m.tempCachedQueries ++
        [m.entities.filter (fun i => mask &&& (entAt m i).componentFlags == mask)] ∧
    (getEntsWith (getEntsWith m mask).2 mask).2.tempCachedQueries =
      m.tempCachedQueries ++
        [m.entities.filter (fun i => mask &&& (entAt m i).componentFlags == mask),
         m.entities.filter (fun i => mask &&& (entAt m i).componentFlags == mask)] := by
  have hstep : ∀ mm : Mgr, mm.queries.find? (fun s => s.1 == mask) = none →
      getEntsWith mm mask =
        (mm.entities.filter (fun i => mask &&& (entAt mm i).componentFlags == mask),
         { mm with tempCachedQueries := mm.tempCachedQueries ++
             [mm.entities.filter
               (fun i => mask &&& (entAt mm i).componentFlags == mask)] }) := by
    intro mm hmm
    unfold getEntsWith
    rw [hmm]
  rw [hstep m h]
  have h2 : ({ m with tempCachedQueries := m.tempCachedQueries ++
      [m.entities.filter (fun i => mask &&& (entAt m i).componentFlags == mask)]
      } : Mgr).queries.find? (fun s => s.1 == mask) = none := h
  rw [hstep _ h2]
  refine ⟨rfl, rfl, ?_⟩
  rw [List.append_assoc]
  rfl

/-- Claim C4 witness: on the concrete `c4Mgr` (no persistent queries, one
matching entity), the first transient request returns the scanned result, by
`getEntsWith_transient_rescans`. -/
theorem getEntsWith_transient_rescans_witness :
    (getEntsWith c4Mgr 1).1 = c4Mgr.entities.filter
      (fun i => 1 &&& (entAt c4Mgr i).componentFlags == 1) :=
  (getEntsWith_transient_rescans c4Mgr 1 (by decide)).1

/-- Claim C4 counterexample: on `c4Mgr`, a second `getEntsWith` request with
the same mask within the same tick appends a second transient entry instead
of being served from the first — the transient cache grows where the claim
says it must gain no additional entry. -/
theorem c4_second_request_appends_again :
    ¬ ((getEntsWith (getEntsWith c4Mgr 1).2 1).2.tempCachedQueries.length =
       (getEntsWith c4Mgr 1).2.tempCachedQueries.length) := by decide

/-- Claim C9: each listed misuse hits its failing assertion (modelled
`none`), and under the corresponding precondition the assertion branch is
unreachable (`some`): queries and systems may be declared only in `Init`,
entities created and ticks run only in `Running`, components and script
hooks added only before finalization, and `getComponent` succeeds exactly
when the component's membership bit is set. -/
theorem assert_guards (m : Mgr) (reqs : List Nat) (e : Ent) (slot : Nat) :
    ((addQueryM m reqs).isSome = true ↔ m.mstate = States.Init) ∧
    ((addSystemM m).isSome = true ↔ m.mstate = States.Init) ∧
    ((addEntityM m).isSome = true ↔ m.mstate = States.Running) ∧
    ((tickM m).isSome = true ↔ m.mstate = States.Running) ∧
    ((e.addComponent slot).isSome = true ↔ e.componentsAdded = false) ∧
    (e.addScript.isSome = true ↔ e.componentsAdded = false) ∧
    ((e.getComponent slot).isSome = true ↔ e.hasComponent slot = true) := by
  refine ⟨?_, ?_, ?_, ?_, ?_, ?_, ?_⟩ <;>
    simp only [addQueryM, addSystemM, addEntityM, tickM, Ent.addComponent,
      Ent.addScript, Ent.getComponent] <;>
    split_ifs <;> simp_all

/-- Projection fact: `entAt` only reads the store of a literally-built manager. -/
theorem entAt_mk (store : List Ent) (ents fresh : List Nat)
    (temp : List (List Nat)) (qs : List (Nat × List Nat)) (sys : Nat)
    (st : States) (tt nt : Nat) (i : Nat) :
    entAt { store := store, entities := ents, freshEntities := fresh,
            tempCachedQueries := temp, queries := qs, systems := sys,
            mstate := st, timeTillThreadStarts := tt, nThreads := nt } i =
      store.getD i default := rfl

/-- Claim C8: calling `tick` when every master-list entity is alive and no
fresh entity is pending (and, as modelled, no registered system or entity
hook mutates manager state) leaves the master list, every persistent query
list and the entity store unchanged, with the transient cache cleared and
the fresh queue still empty. -/
theorem tick_noop_when_clean (m : Mgr)
    (_hrun : m.mstate = States.Running)
    (hmaster : ∀ i ∈ m.entities, (entAt m i).alive = true)
    (_hqueries : ∀ q ∈ m.queries, ∀ i ∈ q.2, (entAt m i).alive = true)
    (hfresh : m.freshEntities = []) :
    (tick m).entities = m.entities ∧ (tick m).queries = m.queries ∧
    (tick m).store = m.store ∧ (tick m).tempCachedQueries = [] ∧
    (tick m).freshEntities = [] := by
  have hr : removeDeadEntitiesF (fun i => (m.store.getD i default).alive)
      (fun i => (m.store.getD i default).componentFlags)
      (fun i => (m.store.getD i default).hasScript) m.entities 0 false =
      (m.entities, 0, false, false) :=
    removeDeadEntitiesF_all_alive _ _ _ _ (fun i hi => hmaster i hi)
  simp only [tick, entAt_mk]
  rw [hr]
  simp [hfresh]

/-- Claim C8 witness: on the concrete clean manager `c8Mgr`, `tick` is a
content no-op, by `tick_noop_when_clean`. -/
theorem tick_noop_when_clean_witness :
    (tick c8Mgr).entities = c8Mgr.entities ∧ (tick c8Mgr).queries = c8Mgr.queries ∧
    (tick c8Mgr).store = c8Mgr.store ∧ (tick c8Mgr).tempCachedQueries = [] ∧
    (tick c8Mgr).freshEntities = [] :=
  tick_noop_when_clean c8Mgr (by decide) (by decide) (by decide) (by decide)

/-- The fresh-promotion fold never resurrects a dead entity: if `i` is dead
and outside the master list and every query, it stays outside and its stored
state is untouched. -/
theorem promoteFoldl_preserves (i : Nat) :
    ∀ (fresh : List Nat) (m : Mgr),
      (entAt m i).alive = false → i ∉ m.entities → (∀ q ∈ m.queries, i ∉ q.2) →
      entAt (List.foldl promoteOne m fresh) i = entAt m i ∧
      i ∉ (List.foldl promoteOne m fresh).entities ∧
      (∀ q ∈ (List.foldl promoteOne m fresh).queries, i ∉ q.2) := by
  intro fresh
  induction fresh with
  | nil =>
    intro m h1 h2 h3
    exact ⟨rfl, h2, h3⟩
  | cons j fresh ih =>
    intro m h1 h2 h3
    rw [List.foldl_cons]
    have step : entAt (promoteOne m j) i = entAt m i ∧
        i ∉ (promoteOne m j).entities ∧
        (∀ q ∈ (promoteOne m j).queries, i ∉ q.2) := by
      simp only [promoteOne]
      by_cases hj : (entAt m j).alive = true
      · rw [if_pos hj]
        have hne : j ≠ i := by
          intro hji
          rw [hji, h1] at hj
          cases hj
        refine ⟨?_, ?_, ?_⟩
        · simp only [entAt]
          exact getD_set_ne m.store j i _ default hne
        · intro hmem
          rcases List.mem_append.mp hmem with hh | hh
          · exact h2 hh
          · exact hne (List.mem_singleton.mp hh).symm
        · intro q hq
          rcases List.mem_map.mp hq with ⟨q0, hq0, rfl⟩
          split_ifs with hmm
          · intro hmem
            rcases List.mem_append.mp hmem with hh | hh
            · exact h3 q0 hq0 hh
            · exact hne (List.mem_singleton.mp hh).symm
          · exact h3 q0 hq0
      · rw [if_neg hj]
        exact ⟨rfl, h2, h3⟩
    obtain ⟨s1, s2, s3⟩ := step
    have hrest := ih (promoteOne m j) (by rw [s1]; exact h1) s2 s3
    exact ⟨by rw [hrest.1, s1], hrest.2.1, hrest.2.2⟩

/-- Claim C10: an entity created during the running phase and killed before
the next tick boundary is silently discarded by that tick: the fresh queue
is drained, the dead entity joins neither the master list nor any persistent
query, and its stored state is untouched — in particular it is never marked
finalized (`componentsAdded` stays false) and its hooks' `begin()` callbacks
never fire (`beginFired` stays false). -/
theorem tick_discards_killed_fresh (m : Mgr) (i : Nat)
    (_hq : i ∈ m.freshEntities)
    (hdead : (entAt m i).alive = false)
    (hnm : i ∉ m.entities)
    (hnq : ∀ q ∈ m.queries, i ∉ q.2)
    (hfin : (entAt m i).componentsAdded = false)
    (hbeg : (entAt m i).beginFired = false) :
    entAt (tick m) i = entAt m i ∧
    i ∉ (tick m).entities ∧
    (∀ q ∈ (tick m).queries, i ∉ q.2) ∧
    (entAt (tick m) i).componentsAdded = false ∧
    (entAt (tick m) i).beginFired = false ∧
    (tick m).freshEntities = [] := by
  have heq : entAt (tick m) i = entAt m i ∧
      i ∉ (tick m).entities ∧
      (∀ q ∈ (tick m).queries, i ∉ q.2) ∧
      (tick m).freshEntities = [] := by
    simp only [tick, entAt_mk]
    set r := removeDeadEntitiesF (fun j => (m.store.getD j default).alive)
      (fun j => (m.store.getD j default).componentFlags)
      (fun j => (m.store.getD j default).hasScript) m.entities 0 false with hrdef
    have hmemr : i ∉ r.1 := by
      intro hmem
      rw [hrdef, removeDeadEntitiesF_fst] at hmem
      exact hnm (mem_removeDeadEntities _ hmem).1
    have main : ∀ (m3 : Mgr), m3.store = m.store → i ∉ m3.entities →
        (∀ q ∈ m3.queries, i ∉ q.2) →
        (List.foldl promoteOne m3 m3.freshEntities).store.getD i default =
          m.store.getD i default ∧
        i ∉ (List.foldl promoteOne m3 m3.freshEntities).entities ∧
        (∀ q ∈ (List.foldl promoteOne m3 m3.freshEntities).queries, i ∉ q.2) := by
      intro m3 hs he hq
      have H := promoteFoldl_preserves i m3.freshEntities m3
        (by simp only [entAt]; rw [hs]; exact hdead) he hq
      refine ⟨?_, H.2.1, H.2.2⟩
      have h1 := H.1
      simp only [entAt] at h1
      rw [h1, hs]
    have hq3 : ∀ q ∈ List.map (fun q =>
        if q.1 &&& r.2.1 ≠ 0 then
          (q.1, removeDeadEntities (fun j => (m.store.getD j default).alive) q.2)
        else q) m.queries, i ∉ q.2 := by
      intro q hq
      rcases List.mem_map.mp hq with ⟨q0, hq0, rfl⟩
      by_cases hmm2 : q0.1 &&& r.2.1 ≠ 0
      · rw [if_pos hmm2]
        intro hmem
        exact hnq q0 hq0 (mem_removeDeadEntities _ hmem).1
      · rw [if_neg hmm2]
        exact hnq q0 hq0
    by_cases hch : r.2.2.2 = true
    · rw [if_pos hch]
      refine ⟨(main _ ?_ ?_ ?_).1, (main _ ?_ ?_ ?_).2.1, (main _ ?_ ?_ ?_).2.2,
        by trivial⟩ <;>
        first
          | rfl
          | exact hmemr
          | exact hq3
    · rw [if_neg hch]
      refine ⟨(main _ ?_ ?_ ?_).1, (main _ ?_ ?_ ?_).2.1, (main _ ?_ ?_ ?_).2.2,
        by trivial⟩ <;>
        first
          | rfl
          | exact hmemr
          | exact hnq
  refine ⟨heq.1, heq.2.1, heq.2.2.1, ?_, ?_, heq.2.2.2⟩
  · rw [heq.1]
    exact hfin
  · rw [heq.1]
    exact hbeg

/-- Claim C10 witness: on the concrete `c10Mgr` (one pending fresh entity,
killed, with a script and a component), the next tick discards it, by
`tick_discards_killed_fresh`. -/
theorem tick_discards_killed_fresh_witness :
    entAt (tick c10Mgr) 0 = entAt c10Mgr 0 ∧
    0 ∉ (tick c10Mgr).entities ∧
    (∀ q ∈ (tick c10Mgr).queries, 0 ∉ q.2) ∧
    (entAt (tick c10Mgr) 0).componentsAdded = false ∧
    (entAt (tick c10Mgr) 0).beginFired = false ∧
    (tick c10Mgr).freshEntities = [] :=
  tick_discards_killed_fresh c10Mgr 0 (by decide) (by decide) (by decide)
    (by decide) (by decide) (by decide)

end EntityCS
